import Mathlib

/-!
Verification of the FootIn orchestration core (`src/agent/`).

The development shallowly embeds the pure data flow of the repository:

* `J` models parsed JSON values, as handed to `update_state_from_tools`
  in `footin_agent.py` after `json.loads`.
* `strJ` models Python `str()` on such values (the classifier tests
  substring markers such as `"news" in str(content)`).
* `update_state_from_tools` embeds the result classifier / state merger
  (`footin_agent.py`, lines 416-454).
* Tool post-processing (`discover_jobs`, `find_contacts`), the batch
  orchestrator (`browserbase_jobs.py`, `search_multiple`) and the
  contact pickers (`hunter_search.py` / `apollo.py`, `_pick_contacts`)
  are embedded as pure functions on records.
* `runLoop` embeds the LangGraph control loop built by `create_agent`:
  `should_continue` routes on whether the last planner reply carries
  tool calls, and `update_state_from_tools` folds only the most recent
  tool message.
-/

/-- Parsed JSON values (the result of `json.loads` on a tool reply). -/
inductive J where
  | null
  | num (n : Int)
  | str (s : String)
  | arr (xs : List J)
  | obj (kvs : List (String × J))

/-- `needle` occurs as a contiguous substring of `hay` (Python `in` on strings). -/
def substrB (needle hay : String) : Bool :=
  hay.toList.tails.any (fun t => needle.toList.isPrefixOf t)

mutual
/-- Python `str()` of a parsed-JSON value: dicts print as
`\x7b'k': v, ...\x7d`, strings with single quotes, `None` for null. -/
def strJ : J → String
  | J.null => "None"
  | J.num n => toString n
  | J.str s => "\x27" ++ s ++ "\x27"
  | J.arr xs => "[" ++ strJItems xs ++ "]"
  | J.obj kvs => "\x7b" ++ strJFields kvs ++ "\x7d"

/-- Comma-separated rendering of list items. -/
def strJItems : List J → String
  | [] => ""
  | [x] => strJ x
  | x :: y :: rest => strJ x ++ ", " ++ strJItems (y :: rest)

/-- Comma-separated rendering of dict fields. -/
def strJFields : List (String × J) → String
  | [] => ""
  | [(k, v)] => "\x27" ++ k ++ "\x27: " ++ strJ v
  | (k, v) :: kv :: rest => "\x27" ++ k ++ "\x27: " ++ strJ v ++ ", " ++ strJFields (kv :: rest)
end

/-- Python `needle in x` for a parsed-JSON `x`: key membership on dicts,
substring on strings, element equality on lists.  (On numbers or `None`
Python raises `TypeError`; those cases are unreachable for this repo's
tool payloads and are mapped to `false`.) -/
def pyInB (needle : String) : J → Bool
  | J.obj kvs => kvs.any (fun kv => kv.1 == needle)
  | J.str s => substrB needle s
  | J.arr xs => xs.any (fun v => match v with | J.str s => s == needle | _ => false)
  | _ => false

/-- Is the value a list? (`isinstance(v, list)`). -/
def isArrB : J → Bool
  | J.arr _ => true
  | _ => false

/-- First-match lookup of a key in a dict, as Python `d[k]` / `d.get(k)`. -/
def lookupJ (k : String) : List (String × J) → Option J
  | [] => none
  | (k2, v) :: rest => if k2 == k then some v else lookupJ k rest

/-- Key-membership test for a dict (`k in d`). -/
def hasKeyB (kvs : List (String × J)) (k : String) : Bool :=
  kvs.any (fun kv => kv.1 == k)

/-- Python `dict.update`: keys already present keep their position and get
the new value; keys only in `upd` are appended in `upd` order. -/
def dictUpdate (base upd : List (String × J)) : List (String × J) :=
  base.map (fun kv =>
    match lookupJ kv.1 upd with
    | some v => (kv.1, v)
    | none => kv)
  ++ upd.filter (fun kv => !(hasKeyB base kv.1))

/-- The agent's accumulating state (`AgentState` minus the message log). -/
structure RunState where
  jobs : List J
  contacts : List (String × J)
  enrichment : List (String × J)
  drafts : List J

/-- The `initial_state` slots of `run_agent` (`footin_agent.py`, line 534). -/
def emptyRunState : RunState := ⟨[], [], [], []⟩

/-- Classifier test for the contacts branch (`footin_agent.py`, line 437):
some dict value is a list whose `str()` contains `"email"`. -/
def contactsShape (kvs : List (String × J)) : Bool :=
  kvs.any (fun kv => isArrB kv.2 && substrB "email" (strJ kv.2))

/-- Classifier test for the enrichment branch (line 442):
`"news" in str(content) or "x_profile" in str(content)`. -/
def enrichShape (kvs : List (String × J)) : Bool :=
  substrB "news" (strJ (J.obj kvs)) || substrB "x_profile" (strJ (J.obj kvs))

/-- Classifier test for the drafts branch (line 447):
`"subject" in content and "body" in content`. -/
def draftShape (kvs : List (String × J)) : Bool :=
  hasKeyB kvs "subject" && hasKeyB kvs "body"

/-- The result classifier / state merger (`footin_agent.py`, lines 427-452),
applied to one parsed tool payload.  Branch order follows the source:
jobs, then contacts, then enrichment, then drafts; no rule firing leaves
the state unchanged. -/
def update_state_from_tools (st : RunState) (content : J) : RunState :=
  match content with
  | J.arr (x :: rest) =>
    if pyInB "role" x then { st with jobs := st.jobs ++ (x :: rest) } else st
  | J.obj kvs =>
    if contactsShape kvs then { st with contacts := dictUpdate st.contacts kvs }
    else if enrichShape kvs then { st with enrichment := dictUpdate st.enrichment kvs }
    else if draftShape kvs then { st with drafts := st.drafts ++ [J.obj kvs] }
    else st
  | _ => st

/-- Routing decision of the conditional edge out of the `agent` node
(`should_continue`, `footin_agent.py`, lines 369-382). -/
inductive Route where
  | tools
  | finish
deriving DecidableEq

/-- `should_continue`: go to the tools node iff the last planner message
carries a non-empty `tool_calls` list.  A planner reply is modelled by the
list of payloads its requested tool calls would produce. -/
def should_continue (toolCalls : List J) : Route :=
  if toolCalls.isEmpty then Route.finish else Route.tools

/-- `update_state_from_tools` walks messages newest-first and `break`s after
the first `ToolMessage`, so of one reply's tool calls only the payload of
the last executed call is folded. -/
def mergeLastTool (st : RunState) (payloads : List J) : RunState :=
  match payloads.getLast? with
  | some p => update_state_from_tools st p
  | none => st

/-- Outcome of driving the compiled graph with a finite planner script.
`running` means the script ended while the loop was still going (there is
no step-limit outcome anywhere in `create_agent` / `run_agent`). -/
inductive LoopOutcome where
  | done (st : RunState) (steps : Nat)
  | running (st : RunState) (steps : Nat)

/-- The compiled graph of `create_agent` (`footin_agent.py`, lines 456-479),
driven by a script of planner replies: `agent → should_continue`; on
`tools` the tool node runs and `update_state` folds the last result, then
control returns to `agent`; on no tool call the run ends. -/
def runLoop : List (List J) → RunState → Nat → LoopOutcome
  | [], st, n => LoopOutcome.running st n
  | reply :: rest, st, n =>
    match should_continue reply with
    | Route.finish => LoopOutcome.done st n
    | Route.tools => runLoop rest (mergeLastTool st reply) (n + 1)

/-- A job record as built by `discover_jobs` (`footin_agent.py`, lines
106-115) and `search_company_jobs` (`browserbase_jobs.py`, lines 364-373). -/
structure Job where
  id : String
  company : String
  role : String
  location : String
  employmentType : String
  summarizedJD : String
  postedDate : String
  url : String
deriving DecidableEq

/-- A contact record as built by `find_contacts` / `hunter_search.py` /
`apollo.py`.  `seniority` is `none` when the provider returned `null`. -/
structure Contact where
  name : String
  email : String
  title : String
  seniority : Option String
  department : String
  company : String
deriving DecidableEq

/-- First-occurrence dedup on a string key, shared shape of the three
source sites: `discover_jobs` (id, no falsy-skip), `find_contacts` /
`search_company_contacts` (email, skips falsy keys), and
`search_multiple` (url, skips falsy keys).  `skipEmpty` selects whether a
record with key `""` is dropped (the Python truthiness test). -/
def dedupGo (key : α → String) (skipEmpty : Bool) (seen : List String) : List α → List α
  | [] => []
  | x :: rest =>
    if skipEmpty && key x == "" then dedupGo key skipEmpty seen rest
    else if seen.contains (key x) then dedupGo key skipEmpty seen rest
    else x :: dedupGo key skipEmpty (key x :: seen) rest

/-- `s.lower()` for a Lean string (character-wise lowering). -/
def pyLower (s : String) : String := String.mk (s.toList.map Char.toLower)

/-- `s.lower().replace(" ", "")`. -/
def stripSpacesLower (s : String) : String :=
  String.mk ((pyLower s).toList.filter (fun c => c ≠ ' '))

/-- Post-processing of `discover_jobs` (`footin_agent.py`, lines 120-131):
filter scraped jobs to the requested companies (case-insensitive substring
test), dedupe by id keeping the first occurrence, truncate to
`max_results`. -/
def discover_jobs_post (companies : List String) (maxResults : Nat) (allJobs : List Job) : List Job :=
  let requestedLower := companies.map pyLower
  let filtered := allJobs.filter (fun j => requestedLower.any (fun req => substrB req (pyLower j.company)))
  (dedupGo (fun j => j.id) false [] filtered).take maxResults

/-- Per-company post-processing of `find_contacts` (`footin_agent.py`,
lines 210-213): drop falsy emails, dedupe by email keeping the first
occurrence, truncate to 3. -/
def find_contacts_select (contacts : List Contact) : List Contact :=
  (dedupGo (fun c => c.email) true [] contacts).take 3

/-- Fold of `search_multiple` (`browserbase_jobs.py`, lines 421-429) over
the per-target outcomes produced by `asyncio.gather(..., return_exceptions=True)`:
list results are concatenated, exceptions are printed and skipped. -/
def search_multiple_collect (outcomes : List (Except Unit (List Job))) : List Job :=
  outcomes.foldl
    (fun acc r =>
      match r with
      | Except.ok js => acc ++ js
      | Except.error _ => acc)
    []

/-- `search_multiple` (`browserbase_jobs.py`, lines 404-440): collect the
per-target outcomes, then remove duplicates by url (falsy urls dropped,
first occurrence kept).  The function returns only this job list; failed
targets leave no trace in the return value. -/
def search_multiple_agg (outcomes : List (Except Unit (List Job))) : List Job :=
  dedupGo (fun j => j.url) true [] (search_multiple_collect outcomes)

/-- Apollo manager seniorities (`apollo.py`, line 27). -/
def apolloManagerLevels : List String := ["manager", "director", "vp", "c_suite", "owner", "partner"]

/-- Apollo individual-contributor seniorities (`apollo.py`, line 28). -/
def apolloIcLevels : List String := ["entry", "senior"]

/-- Does this contact count as a manager for the Apollo picker? -/
def apolloIsManager (p : Contact) : Bool :=
  match p.seniority with
  | some s => apolloManagerLevels.contains s
  | none => false

/-- Does this contact count as an IC for the Apollo picker? -/
def apolloIsIc (p : Contact) : Bool :=
  match p.seniority with
  | some s => apolloIcLevels.contains s
  | none => false

/-- Does this contact count as a manager for the Hunter picker
(`hunter_search.py`, line 183: `seniority == "executive"`)? -/
def hunterIsExec (p : Contact) : Bool :=
  p.seniority == some "executive"

/-- `seniority == "senior"` (`hunter_search.py`, line 184). -/
def hunterIsSenior (p : Contact) : Bool :=
  p.seniority == some "senior"

/-- `seniority == "junior"` (`hunter_search.py`, line 185). -/
def hunterIsJunior (p : Contact) : Bool :=
  p.seniority == some "junior"

/-- The identical fill step of both `_pick_contacts` implementations
(`hunter_search.py`, lines 199-202; `apollo.py`, lines 162-165): if fewer
than 2 are selected, top up from the people not yet selected (Python
`p not in selected`, value equality). -/
def fillToTwo (people sel : List Contact) : List Contact :=
  if sel.length < 2 then
    sel ++ (people.filter (fun p => decide (p ∉ sel))).take (2 - sel.length)
  else sel

/-- `HunterContactSearcher._pick_contacts` (`hunter_search.py`, lines
164-205): up to 2 executives, then one senior (else junior), fill to 2
from the rest, cap at 3. -/
def hunter_pick_contacts (people : List Contact) : List Contact :=
  if people.isEmpty then []
  else
    let executives := people.filter hunterIsExec
    let seniors := people.filter hunterIsSenior
    let juniors := people.filter hunterIsJunior
    let sel1 := executives.take 2
    let sel2 :=
      match seniors with
      | s :: _ => sel1 ++ [s]
      | [] =>
        match juniors with
        | jr :: _ => sel1 ++ [jr]
        | [] => sel1
    (fillToTwo people sel2).take 3

/-- `ApolloContactSearcher._pick_contacts` (`apollo.py`, lines 134-168):
up to 2 managers, then one IC, fill to 2 from the rest, cap at 3. -/
def apollo_pick_contacts (people : List Contact) : List Contact :=
  let managers := people.filter apolloIsManager
  let ics := people.filter apolloIsIc
  let sel1 := managers.take 2
  let sel2 :=
    match ics with
    | i :: _ => sel1 ++ [i]
    | [] => sel1
  (fillToTwo people sel2).take 3

/-- Error payload of `discover_jobs` with no `APIFY_API_TOKEN`
(`footin_agent.py`, line 83). -/
def apifyErrPayload : J := J.obj [("error", J.str "APIFY_API_TOKEN not configured")]

/-- Error payload of `find_contacts` with no `HUNTER_API_KEY` (line 153). -/
def hunterErrPayload : J := J.obj [("error", J.str "HUNTER_API_KEY not configured")]

/-- Error payload of `draft_email` with no `OPENAI_API_KEY` (line 295). -/
def openaiErrPayload : J := J.obj [("error", J.str "OPENAI_API_KEY not configured")]

/-- Payload returned by `enrich_company` when `BROWSERBASE_API_KEY` is
absent (`footin_agent.py`, lines 240-251): a per-company placeholder with
`news` guidance, an `x_profile` suggestion, and a note.  This is a normal
(non-error) payload. -/
def enrichNoKeyPayload (companies : List String) : J :=
  J.obj ((companies.take 3).map (fun company =>
    (company, J.obj
      [ ("news", J.arr [J.obj
          [ ("title", J.str ("Search Google News for \x27" ++ company ++ "\x27 for recent headlines"))
          , ("source", J.str "manual")
          , ("date", J.str "now") ]])
      , ("x_profile", J.obj
          [ ("suggestion", J.str ("Search X/Twitter for @" ++ stripSpacesLower company ++ " for recent tweets")) ])
      , ("note", J.str "BROWSERBASE_API_KEY not configured. Add it for automatic enrichment.") ])))

/-! ### Concrete sample data used in scenario theorems -/

/-- kv-list of a job dict as `discover_jobs` emits it (lines 106-115). -/
def jobObjKv : List (String × J) :=
  [ ("id", J.str "j1"), ("company", J.str "Acme"), ("role", J.str "Engineer")
  , ("location", J.str "United States"), ("type", J.str "Full-time")
  , ("summarizedJD", J.str "Builds internal platforms..."), ("postedDate", J.str "Recently")
  , ("url", J.str "https://acme.example/jobs/j1") ]

/-- A job dict as a JSON value. -/
def jobObjJ : J := J.obj jobObjKv

/-- A jobs payload holding one job. -/
def jobsPayloadJ : J := J.arr [jobObjJ]

/-- kv-list of a contact dict as `find_contacts` emits it (lines 197-206). -/
def contactKv (nm em ti sen dept co : String) : List (String × J) :=
  [ ("name", J.str nm), ("email", J.str em), ("title", J.str ti)
  , ("seniority", J.str sen), ("department", J.str dept)
  , ("linkedin_url", J.null), ("confidence", J.num 90), ("company", J.str co) ]

/-- Contact dict: Al. -/
def cAl : J := J.obj (contactKv "Al Doe" "al@acme.com" "CTO" "executive" "it" "Acme")

/-- Contact dict: Bo, sharing Al's email. -/
def cBo : J := J.obj (contactKv "Bo Roe" "al@acme.com" "VP Eng" "executive" "it" "Acme")

/-- Contact dict: Cy. -/
def cCy : J := J.obj (contactKv "Cy Lou" "cy@acme.com" "Staff Eng" "senior" "it" "Acme")

/-- Contact dict: Di. -/
def cDi : J := J.obj (contactKv "Di Fox" "di@acme.com" "Eng Mgr" "executive" "management" "Acme")

/-- Contact dict: Ed, a pre-existing entry. -/
def cEd : J := J.obj (contactKv "Ed Kim" "ed@acme.com" "PM" "senior" "management" "Acme")

/-- A contacts payload whose Acme list has four entries, two sharing an email. -/
def contactsPayloadKv : List (String × J) := [("Acme", J.arr [cAl, cBo, cCy, cDi])]

/-- A draft payload whose body mentions news coverage. -/
def draftNewsKv : List (String × J) :=
  [ ("subject", J.str "Quick question"), ("body", J.str "Loved the news about your launch")
  , ("to", J.str "al@acme.com") ]

/-- A draft payload free of the classifier marker substrings. -/
def cleanDraftKv : List (String × J) :=
  [ ("subject", J.str "Quick intro"), ("body", J.str "Enjoyed your latest launch post")
  , ("tactics", J.arr [J.str "mentioned_role"]), ("to", J.str "al@acme.com")
  , ("contact_name", J.str "Al Doe") ]

/-- The per-company guidance object `enrich_company` builds for "Acme"
when `BROWSERBASE_API_KEY` is missing. -/
def acmeGuidance : J :=
  J.obj
    [ ("news", J.arr [J.obj
        [ ("title", J.str "Search Google News for \x27Acme\x27 for recent headlines")
        , ("source", J.str "manual")
        , ("date", J.str "now") ]])
    , ("x_profile", J.obj
        [ ("suggestion", J.str "Search X/Twitter for @acme for recent tweets") ])
    , ("note", J.str "BROWSERBASE_API_KEY not configured. Add it for automatic enrichment.") ]

/-- Sample scraped job at Acme Corp. -/
def jobA : Job :=
  ⟨"j1", "Acme Corp", "Engineer", "United States", "Full-time", "Builds platforms", "Recently", "https://acme.example/jobs/j1"⟩

/-- Sample scraped job at an unrequested company. -/
def jobB : Job :=
  ⟨"j2", "Other Inc", "Engineer", "United States", "Full-time", "Builds gadgets", "Recently", "https://other.example/jobs/j2"⟩

/-- A second sample Acme job with its own url. -/
def jobC : Job :=
  ⟨"j3", "Acme Corp", "Designer", "United States", "Full-time", "Designs flows", "Recently", "https://acme.example/jobs/j3"⟩

/-- Sample contact records for the picker scenario. -/
def pEx1 : Contact := ⟨"Ann", "ann@acme.com", "CEO", some "executive", "management", "Acme"⟩

/-- Second executive. -/
def pEx2 : Contact := ⟨"Ben", "ben@acme.com", "CTO", some "executive", "management", "Acme"⟩

/-- Third executive. -/
def pEx3 : Contact := ⟨"Cam", "cam@acme.com", "CFO", some "executive", "management", "Acme"⟩

/-- A senior IC. -/
def pSen : Contact := ⟨"Dee", "dee@acme.com", "Staff Eng", some "senior", "it", "Acme"⟩

/-! ### Lemmas about first-occurrence dedup -/

/-- Every element surviving the dedup came from the input, its key was not
yet seen, and (in falsy-skipping mode) its key is non-empty. -/
theorem dedupGo_mem {α : Type} (key : α → String) (se : Bool) :
    ∀ (l : List α) (seen : List String) (x : α), x ∈ dedupGo key se seen l →
      x ∈ l ∧ key x ∉ seen ∧ (se = true → key x ≠ "") := by
  intro l
  induction l with
  | nil => intro seen x h; simp [dedupGo] at h
  | cons a rest ih =>
    intro seen x h
    simp only [dedupGo] at h
    split_ifs at h with h1 h2
    · rcases ih seen x h with ⟨hm, hs, he⟩
      exact ⟨List.mem_cons_of_mem _ hm, hs, he⟩
    · rcases ih seen x h with ⟨hm, hs, he⟩
      exact ⟨List.mem_cons_of_mem _ hm, hs, he⟩
    · rcases List.mem_cons.mp h with rfl | hm
      · refine ⟨List.mem_cons_self _ _, ?_, ?_⟩
        · intro hmem
          exact h2 (List.elem_iff.mpr hmem)
        · intro hse hempty
          apply h1
          simp [hse, hempty]
      · rcases ih _ x hm with ⟨hm2, hs2, he2⟩
        refine ⟨List.mem_cons_of_mem _ hm2, ?_, he2⟩
        intro hmem
        exact hs2 (List.mem_cons_of_mem _ hmem)

/-- The dedup output has pairwise distinct keys. -/
theorem dedupGo_pairwise {α : Type} (key : α → String) (se : Bool) :
    ∀ (l : List α) (seen : List String),
      List.Pairwise (fun a b => key a ≠ key b) (dedupGo key se seen l) := by
  intro l
  induction l with
  | nil => intro seen; simp [dedupGo]
  | cons a rest ih =>
    intro seen
    simp only [dedupGo]
    split_ifs with h1 h2
    · exact ih seen
    · exact ih seen
    · refine List.Pairwise.cons ?_ (ih _)
      intro b hb heq
      rcases dedupGo_mem key se rest (key a :: seen) b hb with ⟨_, hbs, _⟩
      apply hbs
      rw [← heq]
      exact List.mem_cons_self _ _

/-- Each survivor is the first element of the input carrying its key. -/
theorem dedupGo_find? {α : Type} (key : α → String) (se : Bool) :
    ∀ (l : List α) (seen : List String) (x : α), x ∈ dedupGo key se seen l →
      l.find? (fun y => key y == key x) = some x := by
  intro l
  induction l with
  | nil => intro seen x h; simp [dedupGo] at h
  | cons a rest ih =>
    intro seen x h
    simp only [dedupGo] at h
    split_ifs at h with h1 h2
    · have hx := dedupGo_mem key se rest seen x h
      have hcond : se = true ∧ key a = "" := by simpa using h1
      have hkey : key x ≠ "" := hx.2.2 hcond.1
      rw [List.find?_cons_of_neg]
      · exact ih seen x h
      · simp only [hcond.2, beq_iff_eq]
        exact fun hh => hkey hh.symm
    · have hx := dedupGo_mem key se rest seen x h
      rw [List.find?_cons_of_neg]
      · exact ih seen x h
      · simp only [beq_iff_eq]
        intro heq
        apply hx.2.1
        rw [← heq]
        exact List.elem_iff.mp h2
    · rcases List.mem_cons.mp h with rfl | hm
      · exact List.find?_cons_of_pos _ (by simp)
      · have hx := dedupGo_mem key se rest (key a :: seen) x hm
        rw [List.find?_cons_of_neg]
        · exact ih _ x hm
        · simp only [beq_iff_eq]
          intro heq
          apply hx.2.1
          rw [heq]
          exact List.mem_cons_self _ _

/-! ### Lemmas about the contact pickers -/

/-- Fill-step elements come from the selection or the input. -/
theorem fillToTwo_mem (people sel : List Contact) (x : Contact)
    (h : x ∈ fillToTwo people sel) : x ∈ sel ∨ x ∈ people := by
  unfold fillToTwo at h
  split_ifs at h with hlt
  · rcases List.mem_append.mp h with h1 | h2
    · exact Or.inl h1
    · exact Or.inr (List.mem_of_mem_filter (List.take_subset _ _ h2))
  · exact Or.inl h

/-- With a non-empty input the fill step never returns the empty list. -/
theorem fillToTwo_ne_nil (people sel : List Contact) (hp : people ≠ []) :
    fillToTwo people sel ≠ [] := by
  unfold fillToTwo
  split_ifs with hlt
  · by_cases hsel : sel = []
    · subst hsel
      simp only [List.nil_append, List.length_nil, Nat.sub_zero]
      have hfil : people.filter (fun p => decide (p ∉ ([] : List Contact))) = people :=
        List.filter_eq_self.mpr (fun a _ => by simp)
      rw [hfil]
      intro hnil
      rcases List.take_eq_nil_iff.mp hnil with h2 | h2
      · omega
      · exact hp h2
    · exact fun hnil => hsel (List.append_eq_nil.mp hnil).1
  · intro hnil
    rw [hnil] at hlt
    simp at hlt

/-- If, when the fill step fires, the selection already holds every
input element satisfying `pm`, then filling adds no `pm`-element. -/
theorem fillToTwo_countP (people sel : List Contact) (pm : Contact → Bool)
    (hcov : sel.length < 2 → ∀ x ∈ people, pm x = true → x ∈ sel) :
    (fillToTwo people sel).countP pm ≤ sel.countP pm := by
  unfold fillToTwo
  split_ifs with hlt
  · rw [List.countP_append]
    have hz : ((people.filter (fun p => decide (p ∉ sel))).take (2 - sel.length)).countP pm = 0 := by
      refine List.countP_eq_zero.mpr ?_
      intro a ha hpa
      have hmem := List.mem_filter.mp (List.take_subset _ _ ha)
      have hin : a ∈ sel := hcov hlt a hmem.1 hpa
      exact (decide_eq_true_iff.mp hmem.2) hin
    rw [hz]
    simp
  · exact le_refl _

/-- If a `take 2` of the `pm`-filter plus an IC part is still shorter than
2, that selection already contains every `pm`-element of the input. -/
theorem cover_of_short_sel (people : List Contact) (pm : Contact → Bool) (ic : List Contact)
    (hlen : ((people.filter pm).take 2 ++ ic).length < 2) :
    ∀ x ∈ people, pm x = true → x ∈ (people.filter pm).take 2 ++ ic := by
  intro x hx hpx
  have hlen1 : ((people.filter pm).take 2).length < 2 := by
    rw [List.length_append] at hlen
    omega
  have hflt : (people.filter pm).length < 2 := by
    by_contra hge
    push_neg at hge
    rw [List.length_take, min_eq_left hge] at hlen1
    exact lt_irrefl _ hlen1
  have heq : (people.filter pm).take 2 = people.filter pm :=
    List.take_of_length_le (by omega)
  rw [heq]
  exact List.mem_append_left _ (List.mem_filter.mpr ⟨hx, hpx⟩)

/-- Core manager-count bound shared by both pickers: starting from at most
two `pm`-elements plus a `pm`-free IC part, fill and cap keep the
`pm`-count at 2 or below. -/
theorem pick_core_countP (people : List Contact) (pm : Contact → Bool) (ic : List Contact)
    (hic : ∀ x ∈ ic, pm x = false) :
    ((fillToTwo people ((people.filter pm).take 2 ++ ic)).take 3).countP pm ≤ 2 := by
  have h1 : (fillToTwo people ((people.filter pm).take 2 ++ ic)).countP pm
      ≤ ((people.filter pm).take 2 ++ ic).countP pm :=
    fillToTwo_countP _ _ _ (fun hlt => cover_of_short_sel people pm ic hlt)
  have h2 : ((people.filter pm).take 2 ++ ic).countP pm ≤ 2 := by
    rw [List.countP_append]
    have ha : ((people.filter pm).take 2).countP pm ≤ 2 := by
      calc ((people.filter pm).take 2).countP pm
          ≤ ((people.filter pm).take 2).length := List.countP_le_length _
        _ ≤ 2 := by rw [List.length_take]; exact min_le_left _ _
    have hb : ic.countP pm = 0 :=
      List.countP_eq_zero.mpr (fun a ha2 => by rw [hic a ha2]; simp)
    omega
  have h3 : ((fillToTwo people ((people.filter pm).take 2 ++ ic)).take 3).countP pm
      ≤ (fillToTwo people ((people.filter pm).take 2 ++ ic)).countP pm :=
    List.Sublist.countP_le _ (List.take_sublist _ _)
  omega

/-- A Hunter senior is not a Hunter executive. -/
theorem senior_not_exec (p : Contact) (h : hunterIsSenior p = true) : hunterIsExec p = false := by
  unfold hunterIsSenior at h
  unfold hunterIsExec
  rw [beq_iff_eq] at h
  rw [h]
  decide

/-- A Hunter junior is not a Hunter executive. -/
theorem junior_not_exec (p : Contact) (h : hunterIsJunior p = true) : hunterIsExec p = false := by
  unfold hunterIsJunior at h
  unfold hunterIsExec
  rw [beq_iff_eq] at h
  rw [h]
  decide

/-- An Apollo IC seniority is never an Apollo manager seniority. -/
theorem ic_not_manager (p : Contact) (h : apolloIsIc p = true) : apolloIsManager p = false := by
  unfold apolloIsIc at h
  unfold apolloIsManager
  cases hs : p.seniority with
  | none => rfl
  | some s =>
    rw [hs] at h
    have hmem : s ∈ apolloIcLevels := List.elem_iff.mp h
    simp only [apolloIcLevels, List.mem_cons, List.not_mem_nil, or_false] at hmem
    rcases hmem with rfl | rfl
    · decide
    · decide

/-- The Hunter picker, for non-empty input, rewrites to the shared
fill-and-cap form with an executive-free IC part drawn from the input. -/
theorem hunter_pick_shape (people : List Contact) (hp : people ≠ []) :
    ∃ ic : List Contact, (∀ x ∈ ic, hunterIsExec x = false) ∧ (∀ x ∈ ic, x ∈ people) ∧
      hunter_pick_contacts people
        = (fillToTwo people ((people.filter hunterIsExec).take 2 ++ ic)).take 3 := by
  have hne : people.isEmpty = false := by
    cases people with
    | nil => exact absurd rfl hp
    | cons a l => rfl
  unfold hunter_pick_contacts
  rw [hne]
  simp only [Bool.false_eq_true, if_false]
  cases hs : people.filter hunterIsSenior with
  | cons s stl =>
    refine ⟨[s], ?_, ?_, rfl⟩
    · intro x hx
      rw [List.mem_singleton] at hx
      subst hx
      have hxf : x ∈ people.filter hunterIsSenior := by rw [hs]; exact List.mem_cons_self _ _
      exact senior_not_exec x (List.mem_filter.mp hxf).2
    · intro x hx
      rw [List.mem_singleton] at hx
      subst hx
      have hxf : x ∈ people.filter hunterIsSenior := by rw [hs]; exact List.mem_cons_self _ _
      exact List.mem_of_mem_filter hxf
  | nil =>
    cases hj : people.filter hunterIsJunior with
    | cons jr jtl =>
      refine ⟨[jr], ?_, ?_, rfl⟩
      · intro x hx
        rw [List.mem_singleton] at hx
        subst hx
        have hxf : x ∈ people.filter hunterIsJunior := by rw [hj]; exact List.mem_cons_self _ _
        exact junior_not_exec x (List.mem_filter.mp hxf).2
      · intro x hx
        rw [List.mem_singleton] at hx
        subst hx
        have hxf : x ∈ people.filter hunterIsJunior := by rw [hj]; exact List.mem_cons_self _ _
        exact List.mem_of_mem_filter hxf
    | nil =>
      refine ⟨[], by simp, by simp, ?_⟩
      rw [List.append_nil]

/-- The Apollo picker rewrites to the shared fill-and-cap form with a
manager-free IC part drawn from the input. -/
theorem apollo_pick_shape (people : List Contact) :
    ∃ ic : List Contact, (∀ x ∈ ic, apolloIsManager x = false) ∧ (∀ x ∈ ic, x ∈ people) ∧
      apollo_pick_contacts people
        = (fillToTwo people ((people.filter apolloIsManager).take 2 ++ ic)).take 3 := by
  unfold apollo_pick_contacts
  cases hi : people.filter apolloIsIc with
  | cons i itl =>
    refine ⟨[i], ?_, ?_, rfl⟩
    · intro x hx
      rw [List.mem_singleton] at hx
      subst hx
      have hxf : x ∈ people.filter apolloIsIc := by rw [hi]; exact List.mem_cons_self _ _
      exact ic_not_manager x (List.mem_filter.mp hxf).2
    · intro x hx
      rw [List.mem_singleton] at hx
      subst hx
      have hxf : x ∈ people.filter apolloIsIc := by rw [hi]; exact List.mem_cons_self _ _
      exact List.mem_of_mem_filter hxf
  | nil =>
    refine ⟨[], by simp, by simp, ?_⟩
    rw [List.append_nil]

/-- The four picked-contacts properties, for any picker in the shared
fill-and-cap form over a non-empty input. -/
theorem pick_core_spec (people : List Contact) (pm : Contact → Bool) (ic : List Contact)
    (hp : people ≠ []) (hic0 : ∀ x ∈ ic, pm x = false) (hicmem : ∀ x ∈ ic, x ∈ people) :
    1 ≤ ((fillToTwo people ((people.filter pm).take 2 ++ ic)).take 3).length ∧
    ((fillToTwo people ((people.filter pm).take 2 ++ ic)).take 3).length ≤ 3 ∧
    (∀ c ∈ (fillToTwo people ((people.filter pm).take 2 ++ ic)).take 3, c ∈ people) ∧
    ((fillToTwo people ((people.filter pm).take 2 ++ ic)).take 3).countP pm ≤ 2 := by
  refine ⟨?_, ?_, ?_, pick_core_countP people pm ic hic0⟩
  · rw [List.length_take]
    have hnn := List.length_pos.mpr (fillToTwo_ne_nil people ((people.filter pm).take 2 ++ ic) hp)
    exact le_min (by omega) hnn
  · rw [List.length_take]
    exact min_le_left _ _
  · intro c hc
    rcases fillToTwo_mem people _ c (List.take_subset _ _ hc) with h1 | h2
    · rcases List.mem_append.mp h1 with h3 | h4
      · exact List.mem_of_mem_filter (List.take_subset _ _ h3)
      · exact hicmem c h4
    · exact h2

/-! ### Lemmas about dict update -/

/-- Lookup across an append tries the left part first. -/
theorem lookupJ_append (k : String) (xs ys : List (String × J)) :
    lookupJ k (xs ++ ys)
      = match lookupJ k xs with
        | some v => some v
        | none => lookupJ k ys := by
  induction xs with
  | nil => simp [lookupJ]
  | cons kv rest ih =>
    rcases kv with ⟨k2, v2⟩
    by_cases h : (k2 == k) = true
    · simp [lookupJ, h]
    · simp only [List.cons_append, lookupJ, if_neg h]
      exact ih

/-- A present key has a lookup value. -/
theorem hasKeyB_lookupJ (l : List (String × J)) (k : String) (h : hasKeyB l k = true) :
    ∃ v, lookupJ k l = some v := by
  induction l with
  | nil => simp [hasKeyB] at h
  | cons kv rest ih =>
    by_cases hk : (kv.1 == k) = true
    · exact ⟨kv.2, by rcases kv with ⟨k2, v2⟩; simp only [lookupJ]; rw [if_pos hk]⟩
    · have h2 : hasKeyB rest k = true := by
        simp only [hasKeyB, List.any_cons] at h
        rcases Bool.or_eq_true_iff.mp h with h3 | h3
        · exact absurd h3 hk
        · exact h3
      rcases ih h2 with ⟨v, hv⟩
      exact ⟨v, by rcases kv with ⟨k2, v2⟩; simp only [lookupJ]; rw [if_neg hk]; exact hv⟩

/-- In the mapped half of `dictUpdate`, a key present in both dicts
resolves to the updating dict's value. -/
theorem lookupJ_dictUpdate_map_some (base upd : List (String × J)) (k : String) (v : J)
    (hb : hasKeyB base k = true) (hu : lookupJ k upd = some v) :
    lookupJ k (base.map (fun kv =>
      match lookupJ kv.1 upd with
      | some w => (kv.1, w)
      | none => kv)) = some v := by
  induction base with
  | nil => simp [hasKeyB] at hb
  | cons kv rest ih =>
    rcases kv with ⟨k2, v2⟩
    by_cases hk : (k2 == k) = true
    · have hkeq : k2 = k := by simpa using hk
      subst hkeq
      simp only [List.map_cons, hu, lookupJ]
      rw [if_pos hk]
    · have hb2 : hasKeyB rest k = true := by
        simp only [hasKeyB, List.any_cons] at hb
        rcases Bool.or_eq_true_iff.mp hb with h3 | h3
        · exact absurd h3 hk
        · exact h3
      simp only [List.map_cons]
      cases hlk : lookupJ k2 upd with
      | some w =>
        simp only [lookupJ]
        rw [if_neg hk]
        exact ih hb2
      | none =>
        simp only [lookupJ]
        rw [if_neg hk]
        exact ih hb2

/-- In the mapped half of `dictUpdate`, an absent key stays absent. -/
theorem lookupJ_dictUpdate_map_none (base upd : List (String × J)) (k : String)
    (hb : hasKeyB base k = false) :
    lookupJ k (base.map (fun kv =>
      match lookupJ kv.1 upd with
      | some w => (kv.1, w)
      | none => kv)) = none := by
  induction base with
  | nil => rfl
  | cons kv rest ih =>
    rcases kv with ⟨k2, v2⟩
    have hsplit : (k2 == k) = false ∧ hasKeyB rest k = false := by
      simp only [hasKeyB, List.any_cons, Bool.or_eq_false_iff] at hb
      exact hb
    simp only [List.map_cons]
    cases hlk : lookupJ k2 upd with
    | some w =>
      simp only [lookupJ]
      rw [if_neg (by rw [hsplit.1]; exact Bool.false_ne_true)]
      exact ih hsplit.2
    | none =>
      simp only [lookupJ]
      rw [if_neg (by rw [hsplit.1]; exact Bool.false_ne_true)]
      exact ih hsplit.2

/-- In the appended half of `dictUpdate`, a key absent from the base dict
resolves to the updating dict's value. -/
theorem lookupJ_dictUpdate_filter (base upd : List (String × J)) (k : String) (v : J)
    (hb : hasKeyB base k = false) (hu : lookupJ k upd = some v) :
    lookupJ k (upd.filter (fun kv => !(hasKeyB base kv.1))) = some v := by
  induction upd with
  | nil => simp [lookupJ] at hu
  | cons kv rest ih =>
    rcases kv with ⟨k1, v1⟩
    by_cases hk : (k1 == k) = true
    · have hkeq : k1 = k := by simpa using hk
      subst hkeq
      simp only [lookupJ] at hu
      rw [if_pos hk] at hu
      have hkeep : (!(hasKeyB base k1)) = true := by rw [hb]; rfl
      rw [List.filter_cons]
      rw [if_pos hkeep]
      simp only [lookupJ]
      rw [if_pos hk]
      exact hu
    · simp only [lookupJ] at hu
      rw [if_neg hk] at hu
      by_cases hkeep : (!(hasKeyB base k1)) = true
      · rw [List.filter_cons]
        rw [if_pos hkeep]
        simp only [lookupJ]
        rw [if_neg hk]
        exact ih hu
      · rw [List.filter_cons]
        rw [if_neg hkeep]
        exact ih hu

/-- `dict.update` semantics at the lookup level: after
`base.update(upd)`, every key of `upd` resolves to `upd`'s value — the
old value for the key is discarded, not merged. -/
theorem lookupJ_dictUpdate (base upd : List (String × J)) (k : String)
    (h : hasKeyB upd k = true) :
    lookupJ k (dictUpdate base upd) = lookupJ k upd := by
  rcases hasKeyB_lookupJ upd k h with ⟨v, hv⟩
  rw [hv]
  unfold dictUpdate
  rw [lookupJ_append]
  by_cases hb : hasKeyB base k = true
  · rw [lookupJ_dictUpdate_map_some base upd k v hb hv]
  · have hb2 : hasKeyB base k = false := by
      cases hx : hasKeyB base k
      · rfl
      · exact absurd hx hb
    rw [lookupJ_dictUpdate_map_none base upd k hb2]
    exact lookupJ_dictUpdate_filter base upd k v hb2 hv

/-! ### Claim theorems -/

/-- C1: the claim expects a configured maximum step count with a
`StepLimitExceeded` outcome at step 20.  The control loop of
`create_agent` / `run_agent` has no step bound at all: against a planner
that requests a tool call at every step, the run is still going after
`n` steps for every `n` — in particular it executes step 21 instead of
exiting at step 20, and no step-limit outcome exists. -/
theorem claimC1_no_step_bound :
    (∀ (st : RunState) (n : Nat),
        runLoop (List.replicate n [apifyErrPayload]) st 0 = LoopOutcome.running st n) ∧
    runLoop (List.replicate 21 [apifyErrPayload]) emptyRunState 0
      = LoopOutcome.running emptyRunState 21 := by
  have key : ∀ (n : Nat) (st : RunState) (k : Nat),
      runLoop (List.replicate n [apifyErrPayload]) st k = LoopOutcome.running st (k + n) := by
    intro n
    induction n with
    | zero => intro st k; rfl
    | succ m ih =>
      intro st k
      rw [List.replicate_succ]
      have hstep : runLoop ([apifyErrPayload] :: List.replicate m [apifyErrPayload]) st k
          = runLoop (List.replicate m [apifyErrPayload]) st (k + 1) := rfl
      rw [hstep, ih st (k + 1)]
      have harith : k + 1 + m = k + (m + 1) := by omega
      rw [harith]
  constructor
  · intro st n
    have h := key n st 0
    rwa [Nat.zero_add] at h
  · have h := key 21 emptyRunState 0
    rwa [Nat.zero_add] at h

/-- C8: the loop reaches `Done` exactly when the planner reply carries no
tool call: a reply with no tool calls ends the run at once, a reply with
tool calls folds the last result and continues; the concrete
jobs-then-stop script terminates in `Done` with `jobs` populated and
`contacts`/`drafts` empty. -/
theorem claimC8_done_iff_no_toolcall :
    (∀ (rest : List (List J)) (st : RunState) (n : Nat),
        runLoop ([] :: rest) st n = LoopOutcome.done st n) ∧
    (∀ (p : J) (ps : List J) (rest : List (List J)) (st : RunState) (n : Nat),
        runLoop ((p :: ps) :: rest) st n
          = runLoop rest (mergeLastTool st (p :: ps)) (n + 1)) ∧
    runLoop [[jobsPayloadJ], []] emptyRunState 0
      = LoopOutcome.done { jobs := [jobObjJ], contacts := [], enrichment := [], drafts := [] } 1 :=
  ⟨fun _ _ _ => rfl, fun _ _ _ _ _ => rfl, rfl⟩

/-- C2 counterexample: merging a contacts-shaped payload neither merges
with the existing list, nor dedups by email, nor caps at 3 — the payload
value replaces the company entry wholesale.  Starting from an Acme list
holding Ed, merging a 4-contact payload with a duplicated email yields
exactly that 4-contact list (Ed gone, duplicate email kept, length 4). -/
theorem claimC2_counterexample :
    contactsShape contactsPayloadKv = true ∧
    (update_state_from_tools { emptyRunState with contacts := [("Acme", J.arr [cEd])] }
        (J.obj contactsPayloadKv)).contacts
      = [("Acme", J.arr [cAl, cBo, cCy, cDi])] ∧
    lookupJ "email" (contactKv "Al Doe" "al@acme.com" "CTO" "executive" "it" "Acme")
      = some (J.str "al@acme.com") ∧
    lookupJ "email" (contactKv "Bo Roe" "al@acme.com" "VP Eng" "executive" "it" "Acme")
      = some (J.str "al@acme.com") ∧
    [cAl, cBo, cCy, cDi].length = 4 :=
  ⟨rfl, rfl, rfl, rfl, rfl⟩

/-- C2 amended: the merger REPLACES each company entry with the payload's
list (Python `dict.update`); the dedup-by-email (first occurrence wins)
and the cap at 3 are applied inside `find_contacts` to each payload, so
any single `find_contacts` company list has pairwise distinct emails and
length at most 3. -/
theorem claimC2_amended :
    (∀ (st : RunState) (kvs : List (String × J)) (k : String),
        contactsShape kvs = true → hasKeyB kvs k = true →
        lookupJ k (update_state_from_tools st (J.obj kvs)).contacts = lookupJ k kvs) ∧
    (∀ (cs : List Contact),
        List.Pairwise (fun a b => a.email ≠ b.email) (find_contacts_select cs) ∧
        (find_contacts_select cs).length ≤ 3) := by
  constructor
  · intro st kvs k hshape hkey
    simp only [update_state_from_tools]
    rw [if_pos hshape]
    exact lookupJ_dictUpdate st.contacts kvs k hkey
  · intro cs
    constructor
    · exact List.Pairwise.sublist (List.take_sublist _ _) (dedupGo_pairwise _ _ _ _)
    · unfold find_contacts_select
      rw [List.length_take]
      exact min_le_left _ _

/-- C2 witness: the amended theorem at a concrete payload and input list. -/
theorem claimC2_witness :
    contactsShape [("Acme", J.arr [cCy])] = true ∧
    hasKeyB [("Acme", J.arr [cCy])] "Acme" = true ∧
    lookupJ "Acme" (update_state_from_tools emptyRunState (J.obj [("Acme", J.arr [cCy])])).contacts
      = lookupJ "Acme" [("Acme", J.arr [cCy])] ∧
    (List.Pairwise (fun a b => a.email ≠ b.email) (find_contacts_select [pEx1, pEx1, pSen]) ∧
      (find_contacts_select [pEx1, pEx1, pSen]).length ≤ 3) :=
  ⟨rfl, rfl, claimC2_amended.1 emptyRunState [("Acme", J.arr [cCy])] "Acme" rfl rfl,
    claimC2_amended.2 [pEx1, pEx1, pSen]⟩

/-- C3 counterexample: the merger appends jobs payloads without any dedup
pass over `RunState.jobs`: merging the same one-job payload twice leaves
two entries with the same id. -/
theorem claimC3_counterexample :
    (update_state_from_tools (update_state_from_tools emptyRunState jobsPayloadJ) jobsPayloadJ).jobs
      = [jobObjJ, jobObjJ] ∧
    lookupJ "id" jobObjKv = some (J.str "j1") :=
  ⟨rfl, rfl⟩

/-- C3 amended: the merger only appends a jobs-shaped payload to
`RunState.jobs`; the dedup-by-id (first occurrence wins) happens inside
`discover_jobs` on each single payload, so any one payload carries
pairwise distinct ids while cross-payload duplicates survive. -/
theorem claimC3_amended :
    (∀ (st : RunState) (x : J) (rest : List J), pyInB "role" x = true →
        (update_state_from_tools st (J.arr (x :: rest))).jobs = st.jobs ++ (x :: rest)) ∧
    (∀ (raw : List Job) (companies : List String) (maxR : Nat),
        List.Pairwise (fun a b => a.id ≠ b.id) (discover_jobs_post companies maxR raw)) := by
  constructor
  · intro st x rest h
    simp only [update_state_from_tools]
    rw [if_pos h]
  · intro raw companies maxR
    exact List.Pairwise.sublist (List.take_sublist _ _) (dedupGo_pairwise _ _ _ _)

/-- C3 witness: the amended theorem at a concrete payload and raw list. -/
theorem claimC3_witness :
    pyInB "role" jobObjJ = true ∧
    (update_state_from_tools emptyRunState (J.arr [jobObjJ])).jobs
      = emptyRunState.jobs ++ [jobObjJ] ∧
    List.Pairwise (fun a b => a.id ≠ b.id) (discover_jobs_post ["Acme"] 10 [jobA, jobA]) :=
  ⟨rfl, claimC3_amended.1 emptyRunState jobObjJ [] rfl,
    claimC3_amended.2 [jobA, jobA] ["Acme"] 10⟩

/-- C4 counterexample: `search_multiple` returns only the merged job
list; failed targets leave no trace in the return value.  With targets
A, B, C where B fails, the output equals the output of the run where B
succeeded with an empty list — so no side list naming B is returned —
and it holds exactly A's and C's payloads. -/
theorem claimC4_counterexample :
    search_multiple_agg [Except.ok [jobA], Except.error (), Except.ok [jobC]]
      = search_multiple_agg [Except.ok [jobA], Except.ok [], Except.ok [jobC]] ∧
    search_multiple_agg [Except.ok [jobA], Except.error (), Except.ok [jobC]] = [jobA, jobC] :=
  ⟨rfl, rfl⟩

/-- C4 amended: no target's failure aborts the others — the successful
payloads are concatenated in order, a failing target contributes nothing
and changes nothing else, and the result is the url-dedup of that
concatenation; failures are only printed, never returned. -/
theorem claimC4_amended :
    (∀ (a c : List Job),
        search_multiple_collect [Except.ok a, Except.error (), Except.ok c] = a ++ c) ∧
    (∀ (xs ys : List (Except Unit (List Job))),
        search_multiple_collect (xs ++ Except.error () :: ys)
          = search_multiple_collect (xs ++ ys)) ∧
    (∀ (xs : List (Except Unit (List Job))),
        search_multiple_agg xs
          = dedupGo (fun j => j.url) true [] (search_multiple_collect xs)) := by
  refine ⟨fun a c => rfl, ?_, fun xs => rfl⟩
  intro xs ys
  unfold search_multiple_collect
  rw [List.foldl_append, List.foldl_append]
  rfl

/-- C5 counterexample: the code checks the enrichment markers BEFORE the
drafts shape, so a mapping with `subject` and `body` keys whose body
mentions "news" is filed under enrichment.  Merging it appends nothing to
`drafts` (the claim expects exactly one entry) and pollutes `enrichment`
instead. -/
theorem claimC5_counterexample :
    hasKeyB draftNewsKv "subject" = true ∧
    hasKeyB draftNewsKv "body" = true ∧
    (update_state_from_tools emptyRunState (J.obj draftNewsKv)).drafts = [] ∧
    (update_state_from_tools emptyRunState (J.obj draftNewsKv)).enrichment = draftNewsKv :=
  ⟨rfl, rfl, rfl, rfl⟩

/-- C5 amended: a mapping with `subject` and `body` keys is appended as
exactly one `drafts` entry PROVIDED it escapes the earlier contacts and
enrichment branches (no list value whose `str()` contains "email", and
no "news"/"x_profile" in its `str()`); merging such a payload twice
yields two entries — drafts are never deduplicated. -/
theorem claimC5_amended :
    ∀ (st : RunState) (kvs : List (String × J)),
      contactsShape kvs = false → enrichShape kvs = false → draftShape kvs = true →
      (update_state_from_tools st (J.obj kvs)).drafts = st.drafts ++ [J.obj kvs] ∧
      (update_state_from_tools (update_state_from_tools st (J.obj kvs)) (J.obj kvs)).drafts
        = st.drafts ++ [J.obj kvs, J.obj kvs] := by
  intro st kvs h1 h2 h3
  have hstep : ∀ s : RunState,
      update_state_from_tools s (J.obj kvs) = { s with drafts := s.drafts ++ [J.obj kvs] } := by
    intro s
    simp only [update_state_from_tools]
    rw [if_neg (by simp [h1]), if_neg (by simp [h2]), if_pos h3]
  constructor
  · rw [hstep]
  · rw [hstep, hstep]
    simp [List.append_assoc]

/-- C5 witness: the amended theorem at a marker-free draft payload. -/
theorem claimC5_witness :
    contactsShape cleanDraftKv = false ∧
    enrichShape cleanDraftKv = false ∧
    draftShape cleanDraftKv = true ∧
    ((update_state_from_tools emptyRunState (J.obj cleanDraftKv)).drafts
        = emptyRunState.drafts ++ [J.obj cleanDraftKv] ∧
      (update_state_from_tools (update_state_from_tools emptyRunState (J.obj cleanDraftKv))
          (J.obj cleanDraftKv)).drafts
        = emptyRunState.drafts ++ [J.obj cleanDraftKv, J.obj cleanDraftKv]) :=
  ⟨rfl, rfl, rfl, claimC5_amended emptyRunState cleanDraftKv rfl rfl rfl⟩

/-- C6 counterexample: `enrich_company` with `BROWSERBASE_API_KEY` absent
does not return an error payload — it returns a news/x_profile guidance
placeholder, and merging it fills the `enrichment` slot, so not every
slot is left unchanged. -/
theorem claimC6_counterexample :
    enrichNoKeyPayload ["Acme"] = J.obj [("Acme", acmeGuidance)] ∧
    (update_state_from_tools emptyRunState (enrichNoKeyPayload ["Acme"])).enrichment
      = [("Acme", acmeGuidance)] ∧
    [("Acme", acmeGuidance)] ≠ ([] : List (String × J)) :=
  ⟨rfl, rfl, by simp⟩

/-- C6 amended: for `discover_jobs`, `find_contacts` and `draft_email`, a
missing credential yields a `\x7b"error": ...\x7d` payload and merging it
is a no-op on every slot; `enrich_company`, however, returns a guidance
placeholder that the merger files into the `enrichment` slot (other
slots untouched). -/
theorem claimC6_amended :
    ∀ st : RunState,
      update_state_from_tools st apifyErrPayload = st ∧
      update_state_from_tools st hunterErrPayload = st ∧
      update_state_from_tools st openaiErrPayload = st ∧
      (update_state_from_tools st (enrichNoKeyPayload ["Acme"])).jobs = st.jobs ∧
      (update_state_from_tools st (enrichNoKeyPayload ["Acme"])).contacts = st.contacts ∧
      (update_state_from_tools st (enrichNoKeyPayload ["Acme"])).drafts = st.drafts ∧
      (update_state_from_tools st (enrichNoKeyPayload ["Acme"])).enrichment
        = dictUpdate st.enrichment [("Acme", acmeGuidance)] :=
  fun _ => ⟨rfl, rfl, rfl, rfl, rfl, rfl, rfl⟩

/-- C7: after concatenating per-target results, `search_multiple` dedups
on the job url: the output has pairwise distinct urls, and each survivor
is the first job with its url in concatenation order. -/
theorem claimC7_url_dedup :
    (∀ (xs : List (Except Unit (List Job))),
        search_multiple_agg xs
          = dedupGo (fun j => j.url) true [] (search_multiple_collect xs)) ∧
    (∀ (jobs : List Job),
        List.Pairwise (fun a b => a.url ≠ b.url) (dedupGo (fun j => j.url) true [] jobs)) ∧
    (∀ (jobs : List Job) (j : Job), j ∈ dedupGo (fun j => j.url) true [] jobs →
        jobs.find? (fun y => y.url == j.url) = some j) := by
  refine ⟨fun xs => rfl, fun jobs => dedupGo_pairwise _ _ _ _, ?_⟩
  intro jobs j hj
  exact dedupGo_find? (fun j => j.url) true jobs [] j hj

/-- C7 witness: the dedup theorem at a concrete list with a duplicate url. -/
theorem claimC7_witness :
    jobA ∈ dedupGo (fun j => j.url) true [] [jobA, jobA, jobC] ∧
    [jobA, jobA, jobC].find? (fun y => y.url == jobA.url) = some jobA :=
  ⟨by decide, claimC7_url_dedup.2.2 [jobA, jobA, jobC] jobA (by decide)⟩

/-- C9: every job surviving `discover_jobs` post-processing has a company
name containing (case-insensitively) one of the requested company names,
and every scraped job failing that test is silently dropped from the
result. -/
theorem claimC9_company_filter :
    ∀ (companies : List String) (maxR : Nat) (allJobs : List Job) (j : Job),
      (j ∈ discover_jobs_post companies maxR allJobs →
        (companies.map pyLower).any (fun req => substrB req (pyLower j.company)) = true) ∧
      (j ∈ allJobs →
        (companies.map pyLower).any (fun req => substrB req (pyLower j.company)) = false →
        j ∉ discover_jobs_post companies maxR allJobs) := by
  intro companies maxR allJobs j
  have hforward : j ∈ discover_jobs_post companies maxR allJobs →
      (companies.map pyLower).any (fun req => substrB req (pyLower j.company)) = true := by
    intro hmem
    simp only [discover_jobs_post] at hmem
    have h1 := List.take_subset _ _ hmem
    have h2 := (dedupGo_mem (fun jb : Job => jb.id) false _ _ _ h1).1
    exact (List.mem_filter.mp h2).2
  refine ⟨hforward, ?_⟩
  intro _ hfalse hmem
  have h := hforward hmem
  rw [hfalse] at h
  exact Bool.false_ne_true h

/-- C9 witness: the filter theorem at a concrete scrape where jobB's
company matches no requested name. -/
theorem claimC9_witness :
    jobA ∈ discover_jobs_post ["Acme"] 10 [jobA, jobB] ∧
    (["Acme"].map pyLower).any (fun req => substrB req (pyLower jobA.company)) = true ∧
    jobB ∈ [jobA, jobB] ∧
    (["Acme"].map pyLower).any (fun req => substrB req (pyLower jobB.company)) = false ∧
    jobB ∉ discover_jobs_post ["Acme"] 10 [jobA, jobB] :=
  ⟨by decide,
    (claimC9_company_filter ["Acme"] 10 [jobA, jobB] jobA).1 (by decide),
    by decide, rfl,
    (claimC9_company_filter ["Acme"] 10 [jobA, jobB] jobB).2 (by decide) rfl⟩

/-- C10: both `_pick_contacts` implementations return the empty list on
empty input; on non-empty input they return 1 to 3 contacts, all drawn
from the input, with at most 2 of manager seniority (executive for the
Hunter module, the Apollo manager set for the Apollo module). -/
theorem claimC10_pick_contacts :
    ∀ (people : List Contact),
      (hunter_pick_contacts [] = [] ∧ apollo_pick_contacts [] = []) ∧
      (people ≠ [] →
        (1 ≤ (hunter_pick_contacts people).length ∧
          (hunter_pick_contacts people).length ≤ 3 ∧
          (∀ c ∈ hunter_pick_contacts people, c ∈ people) ∧
          (hunter_pick_contacts people).countP hunterIsExec ≤ 2) ∧
        (1 ≤ (apollo_pick_contacts people).length ∧
          (apollo_pick_contacts people).length ≤ 3 ∧
          (∀ c ∈ apollo_pick_contacts people, c ∈ people) ∧
          (apollo_pick_contacts people).countP apolloIsManager ≤ 2)) := by
  intro people
  refine ⟨⟨rfl, rfl⟩, ?_⟩
  intro hp
  constructor
  · rcases hunter_pick_shape people hp with ⟨ic, hic0, hicmem, hdef⟩
    rw [hdef]
    exact pick_core_spec people hunterIsExec ic hp hic0 hicmem
  · rcases apollo_pick_shape people with ⟨ic, hic0, hicmem, hdef⟩
    rw [hdef]
    exact pick_core_spec people apolloIsManager ic hp hic0 hicmem

/-- C10 witness: the picker theorem at a concrete roster of three
executives and one senior IC. -/
theorem claimC10_witness :
    ([pEx1, pEx2, pEx3, pSen] : List Contact) ≠ [] ∧
    1 ≤ (hunter_pick_contacts [pEx1, pEx2, pEx3, pSen]).length ∧
    (hunter_pick_contacts [pEx1, pEx2, pEx3, pSen]).countP hunterIsExec ≤ 2 ∧
    1 ≤ (apollo_pick_contacts [pEx1, pEx2, pEx3, pSen]).length ∧
    (apollo_pick_contacts [pEx1, pEx2, pEx3, pSen]).countP apolloIsManager ≤ 2 := by
  have h := (claimC10_pick_contacts [pEx1, pEx2, pEx3, pSen]).2 (by decide)
  exact ⟨by decide, h.1.1, h.1.2.2.2, h.2.1, h.2.2.2.2⟩
